import Mathlib

/-!
Verification of the devstream event pipeline: a shallow embedding of the
file-watch loop, build-file classifier, automation engine, notification gate
and insights aggregator, with theorems checking the specified behaviour.

Strings are modelled as `List Char`; JavaScript string operations
(`includes`, `split`, `toLowerCase`, `parseInt`) are given executable
char-list translations below.
-/

namespace DevStream

/-- JS `String.prototype.startsWith` on char lists: `startsWithL a b` is true
iff `b` is a prefix of `a`. -/
def startsWithL : List Char → List Char → Bool
  | _, [] => true
  | [], _ :: _ => false
  | a :: as, b :: bs => a == b && startsWithL as bs

/-- JS `String.prototype.includes` on char lists: substring containment. -/
def containsSubL : List Char → List Char → Bool
  | [], needle => needle.isEmpty
  | a :: as, needle => startsWithL (a :: as) needle || containsSubL as needle

/-- JS `String.prototype.toLowerCase` (ASCII-faithful). -/
def toLowerL (s : List Char) : List Char := s.map Char.toLower

/-- Accumulator loop of single-character `String.prototype.split`. -/
def splitOnCharAux (sep : Char) : List Char → List Char → List (List Char)
  | [], acc => [acc.reverse]
  | c :: cs, acc =>
    if c == sep then acc.reverse :: splitOnCharAux sep cs []
    else splitOnCharAux sep cs (c :: acc)

/-- JS `s.split(sep)` for a single-character separator. -/
def splitOnChar (sep : Char) (s : List Char) : List (List Char) :=
  splitOnCharAux sep s []

/-- Suffix of `l` strictly after the last occurrence of `c`; the whole list
when `c` does not occur. -/
def afterLast (c : Char) : List Char → List Char
  | [] => []
  | x :: xs =>
    if xs.contains c then afterLast c xs
    else if x == c then xs
    else x :: xs

/-- JS `s || ""` applied to a string: the empty string is falsy, so this is
the identity on strings. -/
def jsOrEmptyStr (s : List Char) : List Char := if s.isEmpty then [] else s

/-- Extension derivation of the watch loop (helpers/watcher.ts, `watchDir`):
`path.split(".").pop() || ""`. -/
def extensionOf (path : List Char) : List Char :=
  jsOrEmptyStr ((splitOnChar '.' path).getLastD [])

/-- PathFilter (helpers/watcher.ts `shouldIgnore`): true if any ignore
pattern occurs as a substring of the path. -/
def shouldIgnore (path : List Char) (ignorePaths : List (List Char)) : Bool :=
  ignorePaths.any (fun ignore => containsSubL path ignore)

/-! ## FileWatchLoop (helpers/watcher.ts `watchDir`) -/

/-- Snapshot entry of the watch loop's file map: `{ mtime, size }` as stored
by `fileMap.set(path, { mtime: stat.mtime?.getTime() || 0, size })`. -/
structure SnapEntry where
  mtime : Nat
  size : Nat
deriving DecidableEq

/-- Result of `Deno.stat`: the mtime may be absent (`stat.mtime` null). -/
structure StatInfo where
  mtime : Option Nat
  size : Nat
deriving DecidableEq

/-- Raw filesystem notification kinds handled by `watchDir`; `other` stands
for every kind the loop does not act on (access, any, ...). -/
inductive FsKind
  | create
  | modify
  | remove
  | other
deriving DecidableEq

/-- Operation carried by a published FileChangeEvent. -/
inductive FileOp
  | create
  | modify
  | delete
deriving DecidableEq

/-- Payload published on the `file.changes` topic (types/events.ts). -/
structure FileChangeEvent where
  path : List Char
  operation : FileOp
  extension : List Char
  size : Option Nat
deriving DecidableEq

/-- The watch loop's snapshot map, an association list keyed by path. -/
abbrev FileMap := List (List Char × SnapEntry)

/-- JS `Map.get`. -/
def mapGet (m : FileMap) (k : List Char) : Option SnapEntry :=
  (m.find? (fun kv => kv.1 == k)).map (·.2)

/-- JS `Map.delete`. -/
def mapDelete (m : FileMap) (k : List Char) : FileMap :=
  m.filter (fun kv => !(kv.1 == k))

/-- JS `Map.set` (observationally: the key now maps to `v`, all other keys
are untouched; iteration order is never used by the watch loop). -/
def mapSet (m : FileMap) (k : List Char) (v : SnapEntry) : FileMap :=
  (k, v) :: mapDelete m k

/-- One iteration of the inner loop of `watchDir` (helpers/watcher.ts lines
50-97) for a single notified path. `stat` is the outcome of `Deno.stat` for
create/modify notifications, `none` when the stat threw (the surrounding
try/catch then skips the path); the remove branch performs no stat. Returns
the updated snapshot map and the list of published FileChangeEvents. -/
def watchDirStep (ignorePaths : List (List Char)) (fileMap : FileMap)
    (kind : FsKind) (path : List Char) (stat : Option StatInfo) :
    FileMap × List FileChangeEvent :=
  if shouldIgnore path ignorePaths then (fileMap, [])
  else
    let extension := extensionOf path
    match kind with
    | .create =>
      match stat with
      | none => (fileMap, [])
      | some st => (fileMap, [⟨path, .create, extension, some st.size⟩])
    | .modify =>
      match stat with
      | none => (fileMap, [])
      | some st =>
        let unchanged : Bool :=
          match mapGet fileMap path with
          | some previous =>
            (match st.mtime with
             | some t => previous.mtime == t
             | none => false) && previous.size == st.size
          | none => false
        if unchanged then (fileMap, [])
        else
          (mapSet fileMap path ⟨st.mtime.getD 0, st.size⟩,
           [⟨path, .modify, extension, some st.size⟩])
    | .remove =>
      (mapDelete fileMap path, [⟨path, .delete, extension, none⟩])
    | .other => (fileMap, [])

/-! ## NotificationGate (helpers/notification.ts, config/setup.ts) -/

/-- Digit-accumulation loop of JS `parseInt`, stopping at the first
non-digit character. -/
def digitsVal : List Char → Nat → Nat
  | [], acc => acc
  | c :: cs, acc =>
    if c.isDigit then digitsVal cs (acc * 10 + (c.toNat - '0'.toNat))
    else acc

/-- JS `parseInt` restricted to the shapes occurring in HH:MM fields:
`none` models NaN (no leading digit); sign and whitespace handling are not
needed on this domain. -/
def parseIntJS (s : List Char) : Option Nat :=
  match s with
  | [] => none
  | c :: _ => if c.isDigit then some (digitsVal s 0) else none

/-- Minute-of-day value computed by `isInSilentHours` from one HH:MM config
string: `parseInt(parts[0]) * 60 + parseInt(parts[1])`. `none` models a NaN
result (missing part or non-numeric part). -/
def timeToMinutes (s : List Char) : Option Nat :=
  match splitOnChar ':' s with
  | h :: m :: _ =>
    match parseIntJS h, parseIntJS m with
    | some hh, some mm => some (hh * 60 + mm)
    | _, _ => none
  | _ => none

/-- Silent-hours configuration (`config.notification.silentHours`); the
source fields are `start` and `end`. -/
structure SilentHoursConfig where
  startStr : List Char
  endStr : List Char

/-- Notification configuration consumed by the gate. -/
structure NotificationConfig where
  focusMode : Bool
  silentHours : SilentHoursConfig
  priorityPatterns : List (List Char)

/-- helpers/notification.ts `isInSilentHours`, with the wall clock passed in
as minutes since midnight. When either config string parses to NaN every
JS comparison involving it is false, so the function returns false; this is
the `none` fallthrough. -/
def isInSilentHours (config : NotificationConfig) (currentTime : Nat) : Bool :=
  match timeToMinutes config.silentHours.startStr,
        timeToMinutes config.silentHours.endStr with
  | some startTime, some endTime =>
    -- Handle wrap around midnight
    if startTime > endTime then
      currentTime ≥ startTime || currentTime ≤ endTime
    else
      currentTime ≥ startTime && currentTime ≤ endTime
  | _, _ => false

/-- helpers/notification.ts `isHighPriority`: case-insensitive substring
match of the message against the configured priority phrases. -/
def isHighPriority (message : List Char) (config : NotificationConfig) : Bool :=
  config.priorityPatterns.any
    (fun pattern => containsSubL (toLowerL message) (toLowerL pattern))

/-- Suppression decision of the notification subscription in
`setupNotifications` (config/setup.ts lines 77-87): skip the notification
iff it is not high-priority and focus mode is on or the clock is inside
silent hours. -/
def suppressNotification (message : List Char) (config : NotificationConfig)
    (inFocusMode : Bool) (currentTime : Nat) : Bool :=
  !isHighPriority message config &&
    (inFocusMode || isInSilentHours config currentTime)

/-! ## BuildFileClassifier (helpers/build.ts, config/watchers.ts)

The patterns compiled by `preprocessBuildConfig` are
`new RegExp("^" + file.replace("*", ".*") + "$", "i")`.  Note that
`String.prototype.replace` with a string argument replaces only the first
`*`, and that no regex escaping is applied, so a `.` in the configured name
stays the regex any-character atom.  The fragment of regex syntax reachable
from such sources (single-character atoms `.` or a literal, optionally
quantified by `*`, anchored on both ends, flag `i`) is embedded below. -/

/-- Regex atom: the any-character `.` or a literal character. -/
inductive RAtom
  | anyChar
  | lit (c : Char)
deriving DecidableEq

/-- Regex element: an atom, or an atom quantified by `*`. -/
inductive RTok
  | once (a : RAtom)
  | star (a : RAtom)
deriving DecidableEq

/-- Atom-versus-character match under the case-insensitive flag. -/
def atomMatch : RAtom → Char → Bool
  | .anyChar, _ => true
  | .lit l, c => l.toLower == c.toLower

/-- Fuelled anchored matcher for a token list against a whole string.  The
fuel only bounds recursion depth; every recursive call strictly decreases
`rs.length + s.length`, so any fuel above that sum gives the true answer
(`rmatchF_fuel_irrelevant`). -/
def rmatchF : Nat → List RTok → List Char → Bool
  | 0, _, _ => false
  | _ + 1, [], [] => true
  | _ + 1, [], _ :: _ => false
  | _ + 1, RTok.once _ :: _, [] => false
  | f + 1, RTok.once a :: rs, c :: cs => atomMatch a c && rmatchF f rs cs
  | f + 1, RTok.star _ :: rs, [] => rmatchF f rs []
  | f + 1, RTok.star a :: rs, c :: cs =>
    rmatchF f rs (c :: cs) || (atomMatch a c && rmatchF f (RTok.star a :: rs) cs)

/-- Anchored match of a token list against a whole string. -/
def rmatch (rs : List RTok) (s : List Char) : Bool :=
  rmatchF (rs.length + s.length + 1) rs s

/-- Atom denoted by one character of the generated regex source. -/
def regexAtom (c : Char) : RAtom :=
  if c == '.' then RAtom.anyChar else RAtom.lit c

/-- Token list of a generated regex source: a `*` quantifies the preceding
atom, every other character is a single atom. -/
def tokenizeRegex : List Char → List RTok
  | [] => []
  | [c] => [RTok.once (regexAtom c)]
  | c :: d :: rest =>
    if d == '*' then RTok.star (regexAtom c) :: tokenizeRegex rest
    else RTok.once (regexAtom c) :: tokenizeRegex (d :: rest)

/-- JS `file.replace("*", ".*")`: only the first `*` is replaced. -/
def replaceFirstStar : List Char → List Char
  | [] => []
  | c :: cs => if c == '*' then '.' :: '*' :: cs else c :: replaceFirstStar cs

/-- Acceptance of the pattern `preprocessBuildConfig` compiles from the
configured name `file`, i.e. `new RegExp("^" + file.replace("*", ".*") + "$", "i").test s`. -/
def compiledPatternAccepts (file : List Char) (s : List Char) : Bool :=
  rmatch (tokenizeRegex (replaceFirstStar file)) s

/-- Matcher following the specification's words: `*` maps to zero or more
characters and all other characters of the configured name match literally,
case-insensitively. -/
def globSpecAccepts (file : List Char) (s : List Char) : Bool :=
  rmatch (file.map (fun c =>
    if c == '*' then RTok.star RAtom.anyChar else RTok.once (RAtom.lit c))) s

/-- Token list for the amended reading of the compiled patterns: `*` is zero
or more characters, `.` is any single character, everything else literal. -/
def amendedTokens (file : List Char) : List RTok :=
  file.map (fun c =>
    if c == '*' then RTok.star RAtom.anyChar
    else if c == '.' then RTok.once RAtom.anyChar
    else RTok.once (RAtom.lit c))

/-- Characters on which the embedded regex fragment agrees with JS regex
syntax (no unescaped metacharacters besides `.` and `*`). -/
def safeChar (c : Char) : Bool :=
  c.isAlphanum || c == '-' || c == '_' || c == '.' || c == '*'

/-- BuildEvent operation (types/events.ts). -/
inductive BuildOp
  | start
  | success
  | failure
deriving DecidableEq

/-- Payload published on `build.events` by `handleBuildFileChange`
(helpers/build.ts lines 9-28): operation `start`, the basename, and the
optional language tag. -/
structure BuildEvent where
  operation : BuildOp
  buildFile : List Char
  language : Option (List Char)
deriving DecidableEq

/-- OptimizedBuildConfig (types): the exact-name lookup keys (the source Map
only ever stores `true` values, so membership is all that matters) and the
ordered pattern list, kept as the configured source names the regexes were
compiled from. -/
structure OptimizedBuildConfig where
  lookup : List (List Char)
  patterns : List (List Char × List Char)
deriving DecidableEq

/-- helpers/build.ts `preprocessBuildConfig`, with the loaded
`config/buildFiles.json` table (language → file names) passed in: names
containing `*` go to the pattern list with their language, others to the
exact-match lookup, in configuration order. -/
def preprocessBuildConfig
    (buildFileConfig : List (List Char × List (List Char))) :
    OptimizedBuildConfig :=
  buildFileConfig.foldl
    (fun acc entry =>
      entry.2.foldl
        (fun acc file =>
          if file.contains '*' then
            { acc with patterns := acc.patterns ++ [(file, entry.1)] }
          else
            { acc with lookup := acc.lookup ++ [file] })
        acc)
    ⟨[], []⟩

/-- First match of the pattern loop in the `watchBuilds` subscription. -/
def findFirstPattern (patterns : List (List Char × List Char))
    (fileName : List Char) : Option (List Char) :=
  match patterns with
  | [] => none
  | (pattern, language) :: rest =>
    if compiledPatternAccepts pattern fileName then some language
    else findFirstPattern rest fileName

/-- Classification performed by the `watchBuilds` subscription body
(config/watchers.ts lines 423-441) on a basename, given an
OptimizedBuildConfig: exact lookup first, then the first matching pattern,
else no BuildEvent. -/
def classifyBuildFile (opt : OptimizedBuildConfig) (fileName : List Char) :
    Option BuildEvent :=
  if opt.lookup.contains fileName then
    some ⟨.start, fileName, none⟩
  else
    match findFirstPattern opt.patterns fileName with
    | some language => some ⟨.start, fileName, some language⟩
    | none => none

/-- Value actually destructured in `watchBuilds` (config/watchers.ts line
420): `const { lookup, patterns } = preprocessBuildConfig();` — the call is
not awaited, the destructured Promise object has neither field, so the
handler closes over no configuration (`none` models the pair of
`undefined`s). -/
def watchBuildsDestructuredConfig
    (_buildFileConfig : List (List Char × List (List Char))) :
    Option OptimizedBuildConfig :=
  none

/-- Runtime behaviour of the `watchBuilds` subscription handler on a
basename: with the configuration absent, `lookup.has(fileName)` throws a
TypeError (modelled as `Except.error`) before anything is published;
otherwise the classification above runs. -/
def watchBuildsHandleEvent (conf : Option OptimizedBuildConfig)
    (fileName : List Char) : Except (List Char) (Option BuildEvent) :=
  match conf with
  | none => Except.error ("TypeError: lookup is undefined".toList)
  | some opt => Except.ok (classifyBuildFile opt fileName)

/-- Build-file table of the specification's end-to-end scenario: exact name
`package.json` for javascript, pattern `*.csproj` for csharp. -/
def demoBuildConfig : List (List Char × List (List Char)) :=
  [("javascript".toList, ["package.json".toList]),
   ("csharp".toList, ["*.csproj".toList])]

/-! ## AutomationEngine (config/setup.ts `setupAutomations`) -/

/-- Trigger of an automation (types): optional event-type filter and
optional payload condition. Empty strings are falsy in JS and behave like
absent fields, which `jsTruthy` captures. -/
structure AutomationTrigger where
  topic : List Char
  eventType : Option (List Char)
  condition : Option (List Char)
deriving DecidableEq

/-- Action of an automation; the type field is an arbitrary string in the
source, only `"command"` is ever acted on. -/
structure AutomationAction where
  type : List Char
  command : List Char
deriving DecidableEq

/-- AutomationConfig (types/index.ts). -/
structure AutomationConfig where
  name : List Char
  trigger : AutomationTrigger
  action : AutomationAction
deriving DecidableEq

/-- JS truthiness of an optional string: absent and empty are falsy. -/
def jsTruthy : Option (List Char) → Bool
  | none => false
  | some s => !s.isEmpty

/-- WorkflowEvent status (types/events.ts). -/
inductive WorkflowStatus
  | started
  | completed
  | failed
deriving DecidableEq

/-- Payload published on `workflow.automation`. -/
structure WorkflowEvent where
  name : List Char
  trigger : List Char
  action : List Char
  status : WorkflowStatus
  error : Option (List Char)
deriving DecidableEq

/-- NotificationEvent level (types/events.ts). -/
inductive NotifLevel
  | info
  | warning
  | error
  | success
deriving DecidableEq

/-- Payload published on the `notification` topic. -/
structure NotificationEvent where
  level : NotifLevel
  message : List Char
  source : List Char
  actionable : Bool
  actions : Option (List (List Char))
deriving DecidableEq

/-- Trigger evaluation of the automation subscription (config/setup.ts lines
152-167): skip when an event-type filter is present (truthy) and differs
from the event's type, or when a condition is present (truthy) and is not a
substring of the serialized payload. -/
def automationMatches (automation : AutomationConfig)
    (eventType payloadSerialized : List Char) : Bool :=
  !(jsTruthy automation.trigger.eventType &&
      !(automation.trigger.eventType.getD [] == eventType)) &&
  !(jsTruthy automation.trigger.condition &&
      !containsSubL payloadSerialized (automation.trigger.condition.getD []))

/-- Outcome of executing the automation's command: either
`command.output()` returned (with its success flag and decoded stderr), or
spawning threw (message of the thrown error). -/
inductive CmdOutcome
  | ran (success : Bool) (stderr : List Char)
  | spawnError (msg : List Char)
deriving DecidableEq

/-- Whether the command execution counts as a success: `command.output()`
returned with a zero exit (`success` true); a spawn error never does. -/
def outcomeSuccess : CmdOutcome → Bool
  | .ran success _ => success
  | .spawnError _ => false

/-- The `started` WorkflowEvent of an automation invocation. -/
def startedEvent (automation : AutomationConfig) (eventType : List Char) :
    WorkflowEvent :=
  ⟨automation.name, eventType, automation.action.type, .started, none⟩

/-- Events published by one run of the automation subscription handler
(config/setup.ts lines 151-265) for one incoming event, as the pair
(workflow events, notification events) in publication order.  On a trigger
match a `started` event goes out; the try block only executes the command
for action type `"command"`, throwing when the exit is non-zero; the catch
block publishes the failure notification and the `failed` event. -/
def handleAutomationEvent (automation : AutomationConfig)
    (eventType payloadSerialized : List Char) (outcome : CmdOutcome) :
    List WorkflowEvent × List NotificationEvent :=
  if !automationMatches automation eventType payloadSerialized then ([], [])
  else
    let started := startedEvent automation eventType
    if automation.action.type == "command".toList then
      let failure : List Char → List WorkflowEvent × List NotificationEvent :=
        fun errMsg =>
          ([started,
            ⟨automation.name, eventType, automation.action.type, .failed,
             some errMsg⟩],
           [⟨.error,
             ("Automation \"".toList ++ automation.name ++
              "\" failed: ".toList ++ errMsg),
             "Automation".toList, true,
             some ["View logs".toList, "Edit automation".toList]⟩])
      match outcome with
      | .ran true _ =>
        ([started,
          ⟨automation.name, eventType, automation.action.type, .completed,
           none⟩],
         [⟨.success,
           ("Automation \"".toList ++ automation.name ++
            "\" completed successfully".toList),
           "Automation".toList, false, none⟩])
      | .ran false stderr => failure stderr
      | .spawnError msg => failure msg
    else ([started], [])

/-! ## InsightsAggregator (config/setup.ts `setupInsights`,
helpers/common.ts `generateDailySummary`) -/

/-- One recorded focus session. -/
structure FocusSession where
  startT : Nat
  endT : Nat
  duration : Nat
deriving DecidableEq

/-- fileChanges sub-aggregate of the insights data; the Maps are modelled as
association lists in insertion order. -/
structure InsightsFileChanges where
  byExtension : List (List Char × Nat)
  byHour : List (Nat × Nat)
  byDay : List (List Char × Nat)
deriving DecidableEq

/-- focus sub-aggregate of the insights data. -/
structure InsightsFocus where
  sessions : List FocusSession
  totalDuration : Nat
deriving DecidableEq

/-- git sub-aggregate of the insights data. -/
structure InsightsGit where
  commits : Nat
  pushes : Nat
  pulls : Nat
deriving DecidableEq

/-- InsightsData: the mutable aggregate owned by `setupInsights`. -/
structure InsightsData where
  fileChanges : InsightsFileChanges
  focus : InsightsFocus
  git : InsightsGit
deriving DecidableEq

/-- Stable descending insertion by count, matching the stable JS
`sort((a, b) => b[1] - a[1])`. -/
def insertByCountDesc (x : List Char × Nat) :
    List (List Char × Nat) → List (List Char × Nat)
  | [] => [x]
  | y :: ys => if y.2 < x.2 then x :: y :: ys else y :: insertByCountDesc x ys

/-- Stable descending sort by count. -/
def sortByCountDesc (l : List (List Char × Nat)) : List (List Char × Nat) :=
  l.foldr insertByCountDesc []

/-- Content of the summary notification assembled by
`generateDailySummary` (helpers/common.ts lines 206-258); the string
interpolation around these fields is presentation only. -/
structure DailySummaryReport where
  totalFileChanges : Nat
  topExtensions : List (List Char × Nat)
  focusSessionCount : Nat
  totalFocusMinutes : Nat
  commits : Nat
  pushes : Nat
  pulls : Nat
deriving DecidableEq

/-- helpers/common.ts `generateDailySummary`: computes the summary fields,
publishes the notification, then resets counters for the next day
(lines 260-266: clear `byExtension`, zero the git counters, empty the focus
sessions and total duration; `byHour` and `byDay` are not touched).
Returns the published report together with the insights data as left after
the resets. -/
def generateDailySummary (insightsData : InsightsData) :
    DailySummaryReport × InsightsData :=
  let report : DailySummaryReport :=
    { totalFileChanges :=
        (insightsData.fileChanges.byExtension.map (·.2)).foldl (· + ·) 0
      topExtensions :=
        (sortByCountDesc insightsData.fileChanges.byExtension).take 5
      focusSessionCount := insightsData.focus.sessions.length
      totalFocusMinutes := insightsData.focus.totalDuration / 60000
      commits := insightsData.git.commits
      pushes := insightsData.git.pushes
      pulls := insightsData.git.pulls }
  let reset : InsightsData :=
    { insightsData with
        fileChanges := { insightsData.fileChanges with byExtension := [] }
        git := ⟨0, 0, 0⟩
        focus := ⟨[], 0⟩ }
  (report, reset)

/-! ## General lemmas about the string primitives -/

theorem startsWithL_iff (b a : List Char) :
    startsWithL a b = true ↔ ∃ r, a = b ++ r := by
  induction b generalizing a with
  | nil => simp [startsWithL]
  | cons x xs ih =>
    cases a with
    | nil => simp [startsWithL]
    | cons y ys =>
      simp only [startsWithL, Bool.and_eq_true, beq_iff_eq, ih,
        List.cons_append, List.cons.injEq]
      constructor
      · rintro ⟨rfl, r, rfl⟩
        exact ⟨r, rfl, rfl⟩
      · rintro ⟨r, rfl, rfl⟩
        exact ⟨rfl, r, rfl⟩

theorem containsSubL_iff (hay needle : List Char) :
    containsSubL hay needle = true ↔
      ∃ pre post, hay = pre ++ needle ++ post := by
  induction hay with
  | nil =>
    simp only [containsSubL, List.isEmpty_iff]
    constructor
    · rintro rfl
      exact ⟨[], [], rfl⟩
    · rintro ⟨pre, post, h⟩
      rcases List.append_eq_nil.mp h.symm with ⟨h1, h2⟩
      exact (List.append_eq_nil.mp h1).2
  | cons y ys ih =>
    simp only [containsSubL, Bool.or_eq_true, startsWithL_iff, ih]
    constructor
    · rintro (⟨r, hr⟩ | ⟨pre, post, rfl⟩)
      · exact ⟨[], r, by simpa using hr⟩
      · exact ⟨y :: pre, post, rfl⟩
    · rintro ⟨pre, post, h⟩
      cases pre with
      | nil =>
        left
        exact ⟨post, by simpa using h⟩
      | cons p ps =>
        right
        rcases List.cons.injEq .. ▸ h with ⟨rfl, h2⟩
        exact ⟨ps, post, by simpa using h2⟩

theorem jsOrEmptyStr_eq (s : List Char) : jsOrEmptyStr s = s := by
  cases s <;> simp [jsOrEmptyStr]

theorem mapGet_mapSet_self (m : FileMap) (k : List Char) (v : SnapEntry) :
    mapGet (mapSet m k v) k = some v := by
  unfold mapGet mapSet
  rw [List.find?_cons_of_pos _ (by simp)]
  rfl

theorem mapGet_mapDelete_self (m : FileMap) (k : List Char) :
    mapGet (mapDelete m k) k = none := by
  unfold mapGet mapDelete
  rw [Option.map_eq_none', List.find?_eq_none]
  intro kv hkv
  rcases List.mem_filter.mp hkv with ⟨-, hne⟩
  simpa using hne

theorem splitOnCharAux_ne_nil (c : Char) :
    ∀ (l acc : List Char), splitOnCharAux c l acc ≠ []
  | [], acc => by simp [splitOnCharAux]
  | x :: xs, acc => by
    by_cases hx : x == c <;>
      simp [splitOnCharAux, hx, splitOnCharAux_ne_nil c xs]

theorem getLastD_default_irrel {α : Type} {l : List α} (h : l ≠ [])
    (d₁ d₂ : α) : l.getLastD d₁ = l.getLastD d₂ := by
  rw [List.getLastD_eq_getLast?, List.getLastD_eq_getLast?,
    List.getLast?_eq_getLast l h]
  rfl

theorem afterLast_of_not_mem {c : Char} :
    ∀ {l : List Char}, c ∉ l → afterLast c l = l
  | [], _ => rfl
  | x :: xs, h => by
    have hx : ¬ x = c := fun hxc => h (hxc ▸ List.mem_cons_self x xs)
    have hxs : c ∉ xs := fun hm => h (List.mem_cons_of_mem x hm)
    simp [afterLast, hxs, hx]

theorem splitOnCharAux_getLastD (c : Char) :
    ∀ (l acc : List Char),
      (splitOnCharAux c l acc).getLastD [] =
        if c ∈ l then afterLast c l else acc.reverse ++ l
  | [], acc => by simp [splitOnCharAux]
  | x :: xs, acc => by
    by_cases hx : x = c
    · subst hx
      have h1 : splitOnCharAux x xs [] ≠ [] := splitOnCharAux_ne_nil x xs []
      calc (splitOnCharAux x (x :: xs) acc).getLastD []
          = (acc.reverse :: splitOnCharAux x xs []).getLastD [] := by
            simp [splitOnCharAux]
        _ = (splitOnCharAux x xs []).getLastD acc.reverse := by
            rw [List.getLastD_cons]
        _ = (splitOnCharAux x xs []).getLastD [] :=
            getLastD_default_irrel h1 _ _
        _ = if x ∈ xs then afterLast x xs else xs := by
            rw [splitOnCharAux_getLastD x xs []]; simp
        _ = if x ∈ x :: xs then afterLast x (x :: xs) else acc.reverse ++ (x :: xs) := by
            simp [afterLast]
    · have hb : (x == c) = false := by simp [hx]
      calc (splitOnCharAux c (x :: xs) acc).getLastD []
          = (splitOnCharAux c xs (x :: acc)).getLastD [] := by
            simp [splitOnCharAux, hb]
        _ = if c ∈ xs then afterLast c xs else (x :: acc).reverse ++ xs :=
            splitOnCharAux_getLastD c xs (x :: acc)
        _ = if c ∈ x :: xs then afterLast c (x :: xs) else acc.reverse ++ (x :: xs) := by
            by_cases hm : c ∈ xs
            · simp [hm, afterLast, Ne.symm hx]
            · have : ¬ c ∈ x :: xs := by
                simp only [List.mem_cons, not_or]
                exact ⟨fun h => hx h.symm, hm⟩
              simp [hm, this, List.reverse_cons, List.append_assoc]

theorem extensionOf_eq_afterLast (p : List Char) :
    extensionOf p = afterLast '.' p := by
  unfold extensionOf splitOnChar
  rw [jsOrEmptyStr_eq, splitOnCharAux_getLastD '.' p []]
  by_cases hp : '.' ∈ p
  · simp [hp]
  · simp [hp, afterLast_of_not_mem hp]

/-! ## Semantics of the embedded regex fragment -/

/-- Denotation of one token: a `once` atom consumes exactly one matching
character, a `star` atom consumes any run of matching characters. -/
inductive TokDenote : RTok → List Char → Prop
  | once {a : RAtom} {c : Char} :
      atomMatch a c = true → TokDenote (RTok.once a) [c]
  | star_nil {a : RAtom} : TokDenote (RTok.star a) []
  | star_cons {a : RAtom} {c : Char} {cs : List Char} :
      atomMatch a c = true → TokDenote (RTok.star a) cs →
      TokDenote (RTok.star a) (c :: cs)

/-- Anchored denotation of a token list: the whole string splits into
consecutive chunks, one per token. -/
inductive RListMatch : List RTok → List Char → Prop
  | nil : RListMatch [] []
  | cons {t : RTok} {ts : List RTok} {u v : List Char} :
      TokDenote t u → RListMatch ts v → RListMatch (t :: ts) (u ++ v)

theorem RListMatch.star_split {a : RAtom} {ts : List RTok} {s : List Char}
    (h : RListMatch (RTok.star a :: ts) s) :
    ∃ u v, s = u ++ v ∧ TokDenote (RTok.star a) u ∧ RListMatch ts v := by
  cases h with
  | cons hu hv => exact ⟨_, _, rfl, hu, hv⟩

theorem rmatchF_sound :
    ∀ (f : Nat) (ts : List RTok) (s : List Char),
      rmatchF f ts s = true → RListMatch ts s := by
  intro f
  induction f with
  | zero => intro ts s h; simp [rmatchF] at h
  | succ f ih =>
    intro ts s h
    match ts, s with
    | [], [] => exact RListMatch.nil
    | [], _ :: _ => simp [rmatchF] at h
    | RTok.once a :: rs, [] => simp [rmatchF] at h
    | RTok.once a :: rs, c :: cs =>
      rcases Bool.and_eq_true .. ▸ h with ⟨ha, hr⟩
      exact (List.singleton_append ..) ▸
        RListMatch.cons (TokDenote.once ha) (ih rs cs hr)
    | RTok.star a :: rs, [] =>
      have h' : rmatchF f rs [] = true := h
      have := RListMatch.cons (TokDenote.star_nil (a := a)) (ih rs [] h')
      simpa using this
    | RTok.star a :: rs, c :: cs =>
      rcases Bool.or_eq_true .. ▸ h with hl | hr
      · have := RListMatch.cons (TokDenote.star_nil (a := a)) (ih rs (c :: cs) hl)
        simpa using this
      · rcases Bool.and_eq_true .. ▸ hr with ⟨ha, hm⟩
        rcases (ih _ cs hm).star_split with ⟨u, v, rfl, hu, hv⟩
        exact RListMatch.cons (TokDenote.star_cons ha hu) hv

theorem rmatchF_complete :
    ∀ (f : Nat) (ts : List RTok) (s : List Char),
      RListMatch ts s → ts.length + s.length < f → rmatchF f ts s = true := by
  intro f
  induction f with
  | zero => intro ts s _ hlt; omega
  | succ f ih =>
    intro ts s hm hlt
    cases hm with
    | nil => rfl
    | cons hu hv =>
      rename_i t rs u v
      cases hu with
      | once ha =>
        rename_i a c
        have hr : rmatchF f rs v = true := by
          apply ih rs v hv
          simp at hlt
          omega
        simp [rmatchF, ha, hr]
      | star_nil =>
        rename_i a
        cases v with
        | nil =>
          have hr : rmatchF f rs [] = true := by
            apply ih rs [] hv
            simp at hlt ⊢
            omega
          simpa [rmatchF] using hr
        | cons c cs =>
          have hr : rmatchF f rs (c :: cs) = true := by
            apply ih rs (c :: cs) hv
            simp at hlt ⊢
            omega
          simp [rmatchF, hr]
      | star_cons ha hrest =>
        rename_i a c cs
        have htail : RListMatch (RTok.star a :: rs) (cs ++ v) :=
          RListMatch.cons hrest hv
        have hr : rmatchF f (RTok.star a :: rs) (cs ++ v) = true := by
          apply ih _ _ htail
          simp at hlt ⊢
          omega
        simp [rmatchF, ha, hr]

theorem rmatch_iff (ts : List RTok) (s : List Char) :
    rmatch ts s = true ↔ RListMatch ts s :=
  ⟨rmatchF_sound _ ts s,
   fun h => rmatchF_complete _ ts s h (by omega)⟩

/-! ## Tokenization of the compiled build-file patterns -/

theorem amendedTokens_cons_of_ne_star {c : Char} (hc : c ≠ '*')
    (l : List Char) :
    amendedTokens (c :: l) = RTok.once (regexAtom c) :: amendedTokens l := by
  by_cases hd : c = '.' <;> simp [amendedTokens, regexAtom, hc, hd]

theorem tokenizeRegex_nostar :
    ∀ l : List Char, '*' ∉ l → tokenizeRegex l = amendedTokens l
  | [], _ => rfl
  | [c], h => by
    have hc : c ≠ '*' := fun hcc => h (by simp [hcc])
    rw [amendedTokens_cons_of_ne_star hc]
    rfl
  | c :: d :: rest, h => by
    have hc : c ≠ '*' := fun hcc => h (hcc ▸ List.mem_cons_self c (d :: rest))
    have hd : d ≠ '*' := fun hdd => h (by simp [hdd])
    have h' : '*' ∉ d :: rest := fun hm => h (List.mem_cons_of_mem c hm)
    have ih := tokenizeRegex_nostar (d :: rest) h'
    have hdb : (d == '*') = false := by simp [hd]
    rw [amendedTokens_cons_of_ne_star hc]
    simp [tokenizeRegex, hdb, ih]

theorem replaceFirstStar_append (post : List Char) :
    ∀ pre : List Char, '*' ∉ pre →
      replaceFirstStar (pre ++ '*' :: post) = pre ++ '.' :: '*' :: post
  | [], _ => by simp [replaceFirstStar]
  | c :: pre', h => by
    have hc : c ≠ '*' := fun hcc => h (hcc ▸ List.mem_cons_self c pre')
    have h' : '*' ∉ pre' := fun hm => h (List.mem_cons_of_mem c hm)
    have hcb : (c == '*') = false := by simp [hc]
    simp [replaceFirstStar, hcb, replaceFirstStar_append post pre' h']

theorem tokenizeRegex_dotstar (post : List Char) (hpost : '*' ∉ post) :
    ∀ pre : List Char, '*' ∉ pre →
      tokenizeRegex (pre ++ '.' :: '*' :: post) =
        amendedTokens pre ++ RTok.star RAtom.anyChar :: amendedTokens post
  | [], _ => by
    have hns := tokenizeRegex_nostar post hpost
    have h1 : tokenizeRegex ('.' :: '*' :: post) =
        RTok.star (regexAtom '.') :: tokenizeRegex post := by
      simp [tokenizeRegex]
    rw [List.nil_append, h1, hns]
    simp [amendedTokens, regexAtom]
  | c :: pre', h => by
    have hc : c ≠ '*' := fun hcc => h (hcc ▸ List.mem_cons_self c pre')
    have h' : '*' ∉ pre' := fun hm => h (List.mem_cons_of_mem c hm)
    have ih := tokenizeRegex_dotstar post hpost pre' h'
    rw [amendedTokens_cons_of_ne_star hc]
    cases pre' with
    | nil =>
      have hns := tokenizeRegex_nostar post hpost
      simp [tokenizeRegex, regexAtom, amendedTokens, hns]
    | cons p pre'' =>
      have hp : p ≠ '*' := fun hpp => h' (hpp ▸ List.mem_cons_self p pre'')
      have hpb : (p == '*') = false := by simp [hp]
      simpa [tokenizeRegex, hpb] using ih

theorem count_one_decomp {l : List Char} {a : Char} (h : l.count a = 1) :
    ∃ pre post, l = pre ++ a :: post ∧ a ∉ pre ∧ a ∉ post := by
  induction l with
  | nil => simp at h
  | cons b t ih =>
    by_cases hb : b = a
    · subst hb
      have ht : t.count b = 0 := by
        rw [List.count_cons_self] at h
        omega
      exact ⟨[], t, rfl, by simp, by rwa [← List.count_eq_zero]⟩
    · have ht : t.count a = 1 := by
        rwa [List.count_cons_of_ne (fun hh => hb hh.symm)] at h
      obtain ⟨pre, post, rfl, hp, hq⟩ := ih ht
      refine ⟨b :: pre, post, rfl, ?_, hq⟩
      simp only [List.mem_cons, not_or]
      exact ⟨fun hh => hb hh.symm, hp⟩

theorem tokenizeRegex_compiled_eq_amended (file : List Char)
    (hone : file.count '*' = 1) :
    tokenizeRegex (replaceFirstStar file) = amendedTokens file := by
  obtain ⟨pre, post, rfl, hpre, hpost⟩ := count_one_decomp hone
  rw [replaceFirstStar_append post pre hpre,
    tokenizeRegex_dotstar post hpost pre hpre]
  simp [amendedTokens]

/-! ## Claim theorems -/

/-- C9: for every silent-hours configuration (start, end in HH:MM) parsed to
minute values and every wall-clock time t in minutes since midnight,
isInSilentHours returns true iff: when start > end, t ≥ start or t ≤ end;
otherwise start ≤ t ≤ end, inclusive at both bounds; in particular with
start 22:00 and end 06:00, 23:00 and 02:00 are inside the window and 12:00
is not. -/
theorem isInSilentHours_spec (config : NotificationConfig)
    (t startT endT : Nat)
    (hs : timeToMinutes config.silentHours.startStr = some startT)
    (he : timeToMinutes config.silentHours.endStr = some endT) :
    (isInSilentHours config t = true ↔
      (if startT > endT then startT ≤ t ∨ t ≤ endT
       else startT ≤ t ∧ t ≤ endT))
    ∧ isInSilentHours ⟨false, ⟨"22:00".toList, "06:00".toList⟩, []⟩
        (23 * 60) = true
    ∧ isInSilentHours ⟨false, ⟨"22:00".toList, "06:00".toList⟩, []⟩
        (2 * 60) = true
    ∧ isInSilentHours ⟨false, ⟨"22:00".toList, "06:00".toList⟩, []⟩
        (12 * 60) = false := by
  refine ⟨?_, by decide, by decide, by decide⟩
  by_cases h : startT > endT <;>
    simp [isInSilentHours, hs, he, h, ge_iff_le]

/-- Witness for C9 at the configuration 22:00-06:00 and noon. -/
theorem isInSilentHours_spec_witness :
    timeToMinutes ("22:00".toList) = some 1320 ∧
    timeToMinutes ("06:00".toList) = some 360 ∧
    (isInSilentHours ⟨false, ⟨"22:00".toList, "06:00".toList⟩, []⟩ 720 = true ↔
      (if 1320 > 360 then 1320 ≤ 720 ∨ 720 ≤ 360
       else 1320 ≤ 720 ∧ 720 ≤ 360)) :=
  ⟨by decide, by decide,
    (isInSilentHours_spec ⟨false, ⟨"22:00".toList, "06:00".toList⟩, []⟩
      720 1320 360 (by decide) (by decide)).1⟩

/-- C2: for every NotificationEvent processed by the gate, delivery is
suppressed iff the message is not high-priority and (the focus flag is true
or the current time is within silent hours); high-priority is decided by
case-insensitive substring match of the message against the configured
priority phrases and always forces delivery. -/
theorem notification_gate_spec (message : List Char)
    (config : NotificationConfig) (inFocusMode : Bool) (currentTime : Nat) :
    (suppressNotification message config inFocusMode currentTime = true ↔
      (isHighPriority message config = false ∧
        (inFocusMode = true ∨ isInSilentHours config currentTime = true)))
    ∧ (isHighPriority message config = true →
        suppressNotification message config inFocusMode currentTime = false)
    ∧ (isHighPriority message config = true ↔
        ∃ pattern ∈ config.priorityPatterns, ∃ pre post,
          toLowerL message = pre ++ toLowerL pattern ++ post) := by
  refine ⟨?_, ?_, ?_⟩
  · simp [suppressNotification, Bool.and_eq_true, Bool.not_eq_true',
      Bool.or_eq_true]
  · intro h
    simp [suppressNotification, h]
  · simp [isHighPriority, List.any_eq_true, containsSubL_iff]

/-- Witness for C2: a message containing the priority phrase
"build failure" is never suppressed, even in focus mode at 23:00. -/
theorem notification_gate_spec_witness :
    isHighPriority ("Build Failure in CI".toList)
        ⟨false, ⟨"22:00".toList, "06:00".toList⟩,
          ["test failure".toList, "build failure".toList]⟩ = true ∧
    suppressNotification ("Build Failure in CI".toList)
        ⟨false, ⟨"22:00".toList, "06:00".toList⟩,
          ["test failure".toList, "build failure".toList]⟩ true 1380 = false :=
  ⟨by decide,
    (notification_gate_spec ("Build Failure in CI".toList)
      ⟨false, ⟨"22:00".toList, "06:00".toList⟩,
        ["test failure".toList, "build failure".toList]⟩ true 1380).2.1
      (by decide)⟩

/-- C5 counterexample: after a daily-summary emission the byHour and byDay
counters keep their values instead of being reset to empty. -/
theorem daily_summary_reset_counterexample :
    (generateDailySummary
        ⟨⟨[("ts".toList, 2)], [(10, 3)], [("Monday".toList, 1)]⟩,
         ⟨[], 0⟩, ⟨1, 0, 0⟩⟩).2.fileChanges.byHour = [(10, 3)]
    ∧ (generateDailySummary
        ⟨⟨[("ts".toList, 2)], [(10, 3)], [("Monday".toList, 1)]⟩,
         ⟨[], 0⟩, ⟨1, 0, 0⟩⟩).2.fileChanges.byHour ≠ []
    ∧ (generateDailySummary
        ⟨⟨[("ts".toList, 2)], [(10, 3)], [("Monday".toList, 1)]⟩,
         ⟨[], 0⟩, ⟨1, 0, 0⟩⟩).2.fileChanges.byDay ≠ [] := by
  refine ⟨rfl, by decide, by decide⟩

/-- C5 amended: after each daily-summary emission, byExtension, the git
counters and the focus data are reset to zero/empty, while byHour and byDay
are left unchanged. -/
theorem daily_summary_reset_amended (d : InsightsData) :
    (generateDailySummary d).2.fileChanges.byExtension = []
    ∧ (generateDailySummary d).2.git = ⟨0, 0, 0⟩
    ∧ (generateDailySummary d).2.focus = ⟨[], 0⟩
    ∧ (generateDailySummary d).2.fileChanges.byHour = d.fileChanges.byHour
    ∧ (generateDailySummary d).2.fileChanges.byDay = d.fileChanges.byDay := by
  refine ⟨rfl, rfl, rfl, rfl, rfl⟩

/-- C7 counterexample: for the dotless path "Makefile" the published create
event carries the whole path as its extension, not the empty string. -/
theorem extension_nodot_counterexample :
    '.' ∉ ("Makefile".toList)
    ∧ (watchDirStep [] [] .create ("Makefile".toList) (some ⟨some 1, 1⟩)).2 =
        [⟨"Makefile".toList, FileOp.create, "Makefile".toList, some 1⟩]
    ∧ extensionOf ("Makefile".toList) ≠ [] := by
  refine ⟨by decide, by decide, by decide⟩

/-- C7 amended: the extension field equals the substring of the path after
the last '.' character, and equals the whole path (not the empty string)
when the path contains no '.' at all. -/
theorem extension_amended (path : List Char) :
    extensionOf path = afterLast '.' path
    ∧ ('.' ∉ path → extensionOf path = path) := by
  refine ⟨extensionOf_eq_afterLast path, fun h => ?_⟩
  rw [extensionOf_eq_afterLast path, afterLast_of_not_mem h]

/-- Witness for C7 at a dotted and a dotless path. -/
theorem extension_amended_witness :
    extensionOf ("src/a.ts".toList) = afterLast '.' ("src/a.ts".toList) ∧
    extensionOf ("Makefile".toList) = "Makefile".toList :=
  ⟨(extension_amended ("src/a.ts".toList)).1,
   (extension_amended ("Makefile".toList)).2 (by decide)⟩

/-- C1: for a watched (non-ignored) path with a snapshot entry (oldModTime,
oldSize), a raw modify notification statted as (newModTime, newSize)
publishes the file.modify FileChangeEvent iff newModTime ≠ oldModTime or
newSize ≠ oldSize, and publishes nothing when both are unchanged. -/
theorem modify_published_iff_changed (ignorePaths : List (List Char))
    (fileMap : FileMap) (path : List Char)
    (oldModTime oldSize newModTime newSize : Nat)
    (hig : shouldIgnore path ignorePaths = false)
    (hprev : mapGet fileMap path = some ⟨oldModTime, oldSize⟩) :
    ((watchDirStep ignorePaths fileMap .modify path
        (some ⟨some newModTime, newSize⟩)).2 =
      if newModTime = oldModTime ∧ newSize = oldSize then []
      else [⟨path, FileOp.modify, extensionOf path, some newSize⟩])
    ∧ ((watchDirStep ignorePaths fileMap .modify path
          (some ⟨some newModTime, newSize⟩)).2 ≠ []
        ↔ (newModTime ≠ oldModTime ∨ newSize ≠ oldSize)) := by
  have hstep :
      (watchDirStep ignorePaths fileMap .modify path
        (some ⟨some newModTime, newSize⟩)).2 =
      if newModTime = oldModTime ∧ newSize = oldSize then []
      else [⟨path, FileOp.modify, extensionOf path, some newSize⟩] := by
    unfold watchDirStep
    rw [hig]
    simp only [Bool.false_eq_true, if_false, hprev]
    rcases eq_or_ne newModTime oldModTime with h1 | h1
    · rcases eq_or_ne newSize oldSize with h2 | h2
      · subst h1
        subst h2
        simp
      · subst h1
        have hb : (oldSize == newSize) = false := by
          simp [Ne.symm h2]
        simp [hb, h2]
    · have hb : (oldModTime == newModTime) = false := by
        simp [Ne.symm h1]
      simp [hb, h1]
  refine ⟨hstep, ?_⟩
  rw [hstep]
  by_cases h : newModTime = oldModTime ∧ newSize = oldSize
  · rw [if_pos h]
    simp [h.1, h.2]
  · rw [if_neg h]
    exact ⟨fun _ => not_and_or.mp h, fun _ => by simp⟩

/-- Witness for C1: with snapshot entry (1, 2), a modify statted (3, 2)
publishes and a modify statted (1, 2) does not. -/
theorem modify_published_iff_changed_witness :
    shouldIgnore (['a']) [] = false ∧
    mapGet [((['a']), (⟨1, 2⟩ : SnapEntry))] (['a']) = some ⟨1, 2⟩ ∧
    ((watchDirStep [] [((['a']), ⟨1, 2⟩)] .modify (['a'])
        (some ⟨some 3, 2⟩)).2 ≠ [] ↔ ((3 : Nat) ≠ 1 ∨ (2 : Nat) ≠ 2)) ∧
    ((watchDirStep [] [((['a']), ⟨1, 2⟩)] .modify (['a'])
        (some ⟨some 1, 2⟩)).2 ≠ [] ↔ ((1 : Nat) ≠ 1 ∨ (2 : Nat) ≠ 2)) :=
  ⟨by decide, by decide,
   (modify_published_iff_changed [] [((['a']), ⟨1, 2⟩)] (['a']) 1 2 3 2
      (by decide) (by decide)).2,
   (modify_published_iff_changed [] [((['a']), ⟨1, 2⟩)] (['a']) 1 2 1 2
      (by decide) (by decide)).2⟩

/-- C6 counterexample: an accepted (published) create event does not update
the snapshot map; the entry for the path stays absent. -/
theorem create_snapshot_counterexample :
    (watchDirStep [] [] .create (['a']) (some ⟨some 5, 10⟩)).2 =
      [⟨['a'], FileOp.create, ['a'], some 10⟩]
    ∧ mapGet (watchDirStep [] [] .create (['a'])
        (some ⟨some 5, 10⟩)).1 (['a']) = none := by
  refine ⟨by decide, by decide⟩

/-- C6 amended: an accepted modify updates the snapshot entry for the path
to the newly statted (modTime, size) and a delete removes the entry, but an
accepted create publishes without touching the snapshot map. -/
theorem snapshot_update_amended (ignorePaths : List (List Char))
    (fileMap : FileMap) (path : List Char) (st : StatInfo)
    (newModTime newSize : Nat)
    (hig : shouldIgnore path ignorePaths = false) :
    ((watchDirStep ignorePaths fileMap .create path (some st)).1 = fileMap)
    ∧ ((watchDirStep ignorePaths fileMap .modify path
          (some ⟨some newModTime, newSize⟩)).2 ≠ [] →
        mapGet (watchDirStep ignorePaths fileMap .modify path
          (some ⟨some newModTime, newSize⟩)).1 path =
          some ⟨newModTime, newSize⟩)
    ∧ mapGet (watchDirStep ignorePaths fileMap .remove path (some st)).1
        path = none := by
  refine ⟨?_, ?_, ?_⟩
  · unfold watchDirStep
    rw [hig]
    rfl
  · unfold watchDirStep
    rw [hig]
    simp only [Bool.false_eq_true, if_false]
    split
    · intro h
      simp at h
    · intro _
      exact mapGet_mapSet_self fileMap path ⟨newModTime, newSize⟩
  · unfold watchDirStep
    rw [hig]
    simp only [Bool.false_eq_true, if_false]
    exact mapGet_mapDelete_self fileMap path

/-- Witness for C6: a create leaves the empty snapshot empty, an accepted
modify stores the statted values, a remove leaves no entry. -/
theorem snapshot_update_amended_witness :
    shouldIgnore (['a']) [] = false ∧
    ((watchDirStep [] [] .create (['a']) (some ⟨some 5, 10⟩)).1 = []) ∧
    mapGet (watchDirStep [] [] .remove (['a']) (some ⟨some 5, 10⟩)).1
      (['a']) = none :=
  ⟨by decide,
   (snapshot_update_amended [] [] (['a']) ⟨some 5, 10⟩ 7 9 (by decide)).1,
   (snapshot_update_amended [] [] (['a']) ⟨some 5, 10⟩ 7 9 (by decide)).2.2⟩

/-- C3: for every event matching a command automation's trigger, the handler
publishes exactly one workflow.started followed by exactly one terminal
WorkflowEvent — completed iff the command exits zero, failed otherwise —
never both terminals and never neither. -/
theorem automation_lifecycle (automation : AutomationConfig)
    (eventType payloadSerialized : List Char) (outcome : CmdOutcome)
    (hmatch : automationMatches automation eventType payloadSerialized = true)
    (hcmd : automation.action.type = "command".toList) :
    ∃ terminal : WorkflowEvent,
      (handleAutomationEvent automation eventType payloadSerialized
          outcome).1 =
        [startedEvent automation eventType, terminal]
      ∧ terminal.status ≠ .started
      ∧ (terminal.status = .completed ↔ outcomeSuccess outcome = true)
      ∧ (terminal.status = .failed ↔ outcomeSuccess outcome = false) := by
  have hc : (automation.action.type == "command".toList) = true := by
    simp [hcmd]
  cases outcome with
  | ran success stderr =>
    cases success with
    | true =>
      refine ⟨⟨automation.name, eventType, automation.action.type,
        .completed, none⟩, ?_, by simp, by simp [outcomeSuccess],
        by simp [outcomeSuccess]⟩
      simp [handleAutomationEvent, hmatch, hc, hcmd]
    | false =>
      refine ⟨⟨automation.name, eventType, automation.action.type,
        .failed, some stderr⟩, ?_, by simp, by simp [outcomeSuccess],
        by simp [outcomeSuccess]⟩
      simp [handleAutomationEvent, hmatch, hc, hcmd]
  | spawnError msg =>
    refine ⟨⟨automation.name, eventType, automation.action.type,
      .failed, some msg⟩, ?_, by simp, by simp [outcomeSuccess],
      by simp [outcomeSuccess]⟩
    simp [handleAutomationEvent, hmatch, hc, hcmd]

/-- Automation used by the witnesses: run "npm test" on file.modify events
whose payload mentions "test". -/
def demoAutomation : AutomationConfig :=
  ⟨"run-tests".toList,
   ⟨"file.changes".toList, some ("file.modify".toList),
    some ("test".toList)⟩,
   ⟨"command".toList, "npm test".toList⟩⟩

/-- Witness for C3: on a matching event, the successful run yields exactly
started-then-completed. -/
theorem automation_lifecycle_witness :
    automationMatches demoAutomation ("file.modify".toList)
        ("src/test/a.ts".toList) = true ∧
    demoAutomation.action.type = "command".toList ∧
    ∃ terminal : WorkflowEvent,
      (handleAutomationEvent demoAutomation ("file.modify".toList)
          ("src/test/a.ts".toList) (CmdOutcome.ran true [])).1 =
        [startedEvent demoAutomation ("file.modify".toList), terminal]
      ∧ terminal.status ≠ .started
      ∧ (terminal.status = .completed ↔
          outcomeSuccess (CmdOutcome.ran true []) = true)
      ∧ (terminal.status = .failed ↔
          outcomeSuccess (CmdOutcome.ran true []) = false) :=
  ⟨by decide, by decide,
   automation_lifecycle demoAutomation ("file.modify".toList)
     ("src/test/a.ts".toList) (CmdOutcome.ran true []) (by decide)
     (by decide)⟩

/-- C8 counterexample: the compiled pattern for the configured name
"*.csproj" accepts the basename "aXcsproj", which under the claim's reading
('*' is zero or more characters, every other character literal,
case-insensitive) must be rejected: it has no literal '.'. -/
theorem compiled_pattern_counterexample :
    compiledPatternAccepts ("*.csproj".toList) ("aXcsproj".toList) = true
    ∧ globSpecAccepts ("*.csproj".toList) ("aXcsproj".toList) = false := by
  refine ⟨by decide, by decide⟩

/-- C8 amended: for a configured name over filename characters containing
exactly one '*', the compiled matcher accepts a basename iff it matches the
name case-insensitively with '*' as zero or more characters, '.' as any
single character, and all other characters literal; in particular
'*.csproj' matches 'Foo.csproj' and 'foo.CSPROJ' but not 'Foo.csproj.bak'. -/
theorem compiled_glob_amended (file : List Char)
    (_hsafe : file.all safeChar = true) (hone : file.count '*' = 1) :
    (∀ s, compiledPatternAccepts file s = true ↔
        RListMatch (amendedTokens file) s)
    ∧ compiledPatternAccepts ("*.csproj".toList) ("Foo.csproj".toList) = true
    ∧ compiledPatternAccepts ("*.csproj".toList) ("foo.CSPROJ".toList) = true
    ∧ compiledPatternAccepts ("*.csproj".toList)
        ("Foo.csproj.bak".toList) = false := by
  refine ⟨fun s => ?_, by decide, by decide, by decide⟩
  unfold compiledPatternAccepts
  rw [tokenizeRegex_compiled_eq_amended file hone]
  exact rmatch_iff _ s

/-- Witness for C8 at the configured name '*.csproj' and basename
'Foo.csproj'. -/
theorem compiled_glob_amended_witness :
    ("*.csproj".toList.all safeChar = true) ∧
    ("*.csproj".toList.count '*' = 1) ∧
    (compiledPatternAccepts ("*.csproj".toList) ("Foo.csproj".toList) = true ↔
      RListMatch (amendedTokens ("*.csproj".toList)) ("Foo.csproj".toList)) :=
  ⟨by decide, by decide,
   (compiled_glob_amended ("*.csproj".toList) (by decide) (by decide)).1
     ("Foo.csproj".toList)⟩

/-- C4: evaluation at the failing input. In config/watchers.ts the call
`preprocessBuildConfig()` is not awaited, so the destructured `lookup` and
`patterns` are undefined and the subscription handler throws on every
file.create/file.modify event instead of classifying; had the configuration
been awaited, a create of package.json would yield the BuildEvent with no
language, App.csproj the csharp-tagged one, and a non-build file none. -/
theorem watchBuilds_unawaited_drops_build_events :
    watchBuildsHandleEvent (watchBuildsDestructuredConfig demoBuildConfig)
        ("package.json".toList) =
      Except.error ("TypeError: lookup is undefined".toList)
    ∧ (∀ fileName, watchBuildsHandleEvent
        (watchBuildsDestructuredConfig demoBuildConfig) fileName ≠
        Except.ok (classifyBuildFile (preprocessBuildConfig demoBuildConfig)
          fileName))
    ∧ classifyBuildFile (preprocessBuildConfig demoBuildConfig)
        ("package.json".toList) =
        some ⟨.start, "package.json".toList, none⟩
    ∧ classifyBuildFile (preprocessBuildConfig demoBuildConfig)
        ("App.csproj".toList) =
        some ⟨.start, "App.csproj".toList, some ("csharp".toList)⟩
    ∧ classifyBuildFile (preprocessBuildConfig demoBuildConfig)
        ("random.txt".toList) = none := by
  refine ⟨rfl, fun fileName => ?_, by decide, by decide, by decide⟩
  intro h
  exact Except.noConfusion h

end DevStream
